import Mathlib

/-!
# Verification of the Chunked Risk Analysis Engine

Shallow embedding of the core pipeline of the PR-Risk-Scoring-Tool
(`src/riskAnalyzer.ts`, `src/types/errors.ts`, `src/schema.ts`) and proofs
about the claims of its specification.

Diff texts are modelled as `List Char` (a TypeScript string is a sequence of
UTF-16 units; all inputs of interest here are plain ASCII, where one unit is
one character and `String.prototype.length` is the list length).  Assessment
fields and error messages are modelled as Lean `String`.
-/

/-! ## Strings as lists of characters: split / join / trim -/

/-- Model of `diff.split("\n")` (riskAnalyzer.ts line 96): splits a character
sequence at every newline.  As in JavaScript, the empty string yields `[""]`
and a trailing newline yields a trailing empty line. -/
def splitLines : List Char → List (List Char)
  | [] => [[]]
  | c :: cs =>
    if c = '\n' then [] :: splitLines cs
    else
      match splitLines cs with
      | [] => [[c]]
      | l :: ls => (c :: l) :: ls

/-- Model of `array.join("\n")` (riskAnalyzer.ts lines 106, 115, 127):
concatenates the parts with a single newline between consecutive parts. -/
def joinLines : List (List Char) → List Char
  | [] => []
  | [l] => l
  | l :: ls => l ++ '\n' :: joinLines ls

/-- The whitespace characters removed by `String.prototype.trim()` that can
occur in the ASCII inputs of interest (space, tab, newline, carriage return,
vertical tab, form feed). -/
def isWsChar (c : Char) : Bool :=
  c = ' ' || c = '\t' || c = '\n' || c = '\r' || c = '\x0b' || c = '\x0c'

/-- Model of `chunk.trim()` as used by the splitter's final filter
(riskAnalyzer.ts line 130): removes leading and trailing whitespace. -/
def trimChars (s : List Char) : List Char :=
  ((s.dropWhile isWsChar).reverse.dropWhile isWsChar).reverse

/-! ## The Boundary-Aware Splitter (`RiskAnalyzer.splitDiffIntoChunks`) -/

/-- The file-boundary marker prefix `"diff --git"` (riskAnalyzer.ts line 112). -/
def gitMarker : List Char := ("diff --git").toList

/-- `line.startsWith("diff --git")`. -/
def isGitBoundary (line : List Char) : Bool := gitMarker.isPrefixOf line

/-- The loop of `splitDiffIntoChunks` (riskAnalyzer.ts lines 100-128),
expressed over groups of lines; the chunk strings are produced by mapping
`joinLines` over the result (the source pushes `currentChunk.join("\n")` at
each flush).  State: remaining lines, `currentChunk`, `currentSize`.
Per line, in source order: (1) if adding the line would exceed the limit and
the current chunk is non-empty, flush; (2) if the line starts a new file and
the current chunk is non-empty, flush; (3) push the line and add
`line.length + 1` to the running size.  At the end the remaining chunk is
flushed if non-empty. -/
def chunkGo (maxChunkSize : Nat) : List (List Char) → List (List Char) → Nat → List (List (List Char))
  | [], cur, _ => if cur = [] then [] else [cur]
  | line :: rest, cur, size =>
    let lineSize := line.length + 1
    match (if size + lineSize > maxChunkSize ∧ cur ≠ [] then
             (([cur] : List (List (List Char))), ([] : List (List Char)), 0)
           else ([], cur, size)) with
    | (flushed1, cur1, size1) =>
      match (if isGitBoundary line ∧ cur1 ≠ [] then
               (flushed1 ++ [cur1], ([] : List (List Char)), 0)
             else (flushed1, cur1, size1)) with
      | (flushed2, cur2, size2) =>
        flushed2 ++ chunkGo maxChunkSize rest (cur2 ++ [line]) (size2 + lineSize)

/-- The chunk list built by `splitDiffIntoChunks` before its final
whitespace filter (riskAnalyzer.ts lines 94-129, i.e. everything up to the
`chunks.filter(...)` on line 130). -/
def splitDiffChunksUnfiltered (diff : List Char) (maxChunkSize : Nat) : List (List Char) :=
  (chunkGo maxChunkSize (splitLines diff) [] 0).map joinLines

/-- `RiskAnalyzer.splitDiffIntoChunks` (riskAnalyzer.ts lines 94-131),
including the final `chunks.filter((chunk) => chunk.trim().length > 0)`. -/
def splitDiffIntoChunks (diff : List Char) (maxChunkSize : Nat) : List (List Char) :=
  (splitDiffChunksUnfiltered diff maxChunkSize).filter
    (fun chunk => 0 < (trimChars chunk).length)

/-! ## Configuration (`getMaxDiffSize` and the chunk budget) -/

/-- `DEFAULT_MAX_DIFF_SIZE = 30 * 1024` (riskAnalyzer.ts line 22). -/
def DEFAULT_MAX_DIFF_SIZE : Nat := 30 * 1024

/-- `getMaxDiffSize` (riskAnalyzer.ts lines 28-37).  The environment variable
`MAX_DIFF_SIZE_KB` is modelled as `Option Int`: `none` when the variable is
unset or `Number(...)` yields `NaN`, `some kb` for a numeric value.  The
source returns `kb * 1024` when `kb > 0` and the default otherwise. -/
def getMaxDiffSize (envKB : Option Int) : Nat :=
  match envKB with
  | some kb => if 0 < kb then kb.toNat * 1024 else DEFAULT_MAX_DIFF_SIZE
  | none => DEFAULT_MAX_DIFF_SIZE

/-- The conservative per-request chunk budget
`safeChunkSize = Math.min(maxDiffSize, 5 * 1024)` (riskAnalyzer.ts line 286). -/
def safeChunkSize (maxDiffSize : Nat) : Nat := min maxDiffSize (5 * 1024)

/-! ## The recursion structure of `analyzeDiff` (termination model)

`analyzeDiff` (riskAnalyzer.ts lines 271-400) with chunking enabled checks
`diffSize > safeChunkSize` and, if so, splits the diff with
`splitDiffIntoChunks(input.diff, safeChunkSize)` and recursively calls
`await this.analyzeDiff(chunkInput, true)` on every chunk (line 324) before
anything else can happen to that chunk.  `analyzeDepth` models exactly this
unconditional recursion: `analyzeDepth env fuel diff = true` iff the nest of
recursive `analyzeDiff` calls rooted at `diff` has depth at most `fuel`.
Calls on a diff that fits the budget perform no further unconditional
recursion (the catch-handler at lines 326-387 can only add *more* recursion),
so `(∀ fuel, analyzeDepth env fuel d = false)` means the source recursion on
`d` is infinite. -/
def analyzeDepth (envKB : Option Int) : Nat → List Char → Bool
  | 0, _ => false
  | fuel + 1, diff =>
    let safe := safeChunkSize (getMaxDiffSize envKB)
    if diff.length > safe then
      (splitDiffIntoChunks diff safe).all (fun chunk => analyzeDepth envKB fuel chunk)
    else true

/-! ## The assessment data model (`src/types`, `src/schema.ts`) -/

/-- `risk_level` enum: `z.enum(["LOW", "MEDIUM", "HIGH"])`. -/
inductive RiskLevel where
  | LOW
  | MEDIUM
  | HIGH
deriving DecidableEq

/-- `migration_risk` enum: `z.enum(["NONE", "LOW", "HIGH"])`. -/
inductive MigrationRisk where
  | NONE
  | LOW
  | HIGH
deriving DecidableEq

/-- The `RiskAssessment` record (schema.ts `RiskSchema`). -/
structure RiskAssessment where
  risk_level : RiskLevel
  risk_summary : String
  risk_factors : List String
  reviewer_focus_areas : List String
  missing_tests : Bool
  migration_risk : MigrationRisk
deriving DecidableEq

/-- `riskLevelOrder` (riskAnalyzer.ts lines 189-193): `LOW: 1, MEDIUM: 2, HIGH: 3`. -/
def riskLevelOrder : RiskLevel → Nat
  | RiskLevel.LOW => 1
  | RiskLevel.MEDIUM => 2
  | RiskLevel.HIGH => 3

/-- `Math.round(diffSize / 1024)` for a natural byte count: division by 1024
rounded half away from zero (for non-negative arguments this is half-up). -/
def roundKB (diffSize : Nat) : Nat := (diffSize + 512) / 1024

/-- `RiskAnalyzer.createFallbackAssessment` (riskAnalyzer.ts lines 143-163). -/
def createFallbackAssessment (diffSize : Nat) : RiskAssessment :=
  { risk_level := RiskLevel.MEDIUM
    risk_summary :=
      "Large diff (" ++ toString (roundKB diffSize) ++
        "KB) could not be fully analyzed due to API token limits. Manual review recommended."
    risk_factors :=
      [ "Diff too large for automated analysis",
        "API token limits exceeded",
        "Consider analyzing specific files or switching to OpenAI provider" ]
    reviewer_focus_areas :=
      [ "Review all changes manually",
        "Check for breaking changes",
        "Verify test coverage",
        "Review database migrations if any" ]
    missing_tests := true
    migration_risk := MigrationRisk.NONE }

/-! ## The Assessment Combiner (`RiskAnalyzer.combineAssessments`) -/

/-- One step of the `assessments.reduce(...)` at riskAnalyzer.ts lines
194-199: keep the assessment whose `risk_level` has the larger order; on
ties keep the earlier one. -/
def pickHigher (best a : RiskAssessment) : RiskAssessment :=
  if riskLevelOrder a.risk_level > riskLevelOrder best.risk_level then a else best

/-- One insertion into a JavaScript `Set<string>` as materialised by
`Array.from`: append the string unless it is already present (insertion
order is preserved, duplicates are dropped). -/
def setAdd (acc : List String) (s : String) : List String :=
  if s ∈ acc then acc else acc ++ [s]

/-- `forEach`-ing a list of strings into the set. -/
def addAll (acc : List String) (xs : List String) : List String := xs.foldl setAdd acc

/-- `RiskAnalyzer.combineAssessments` (riskAnalyzer.ts lines 175-241).
The empty case returns the fallback for size 0 (lines 176-182); a singleton
is returned unchanged (lines 184-186); otherwise `reduce` picks the
highest-risk assessment, factors and focus areas are unioned through a
`Set`, `missing_tests` is OR-ed, the non-`NONE` migration risks are
collected (`migrationRisks`) and combined as `HIGH` if any is `HIGH`, else
`LOW` if any is present, and the summary of the highest-risk assessment is
prefixed with the chunk count. -/
def combineAssessments : List RiskAssessment → RiskAssessment
  | [] => createFallbackAssessment 0
  | [a] => a
  | a :: b :: rest =>
    let assessments := a :: b :: rest
    let highestRisk := (b :: rest).foldl pickHigher a
    let allRiskFactors := assessments.foldl (fun acc x => addAll acc x.risk_factors) []
    let allFocusAreas := assessments.foldl (fun acc x => addAll acc x.reviewer_focus_areas) []
    let anyMissingTests := assessments.any (fun x => x.missing_tests)
    let migrationRisks :=
      (assessments.map (fun x => x.migration_risk)).filter (fun m => m ≠ MigrationRisk.NONE)
    let combinedMigrationRisk :=
      if MigrationRisk.HIGH ∈ migrationRisks then MigrationRisk.HIGH
      else if MigrationRisk.LOW ∈ migrationRisks then MigrationRisk.LOW
      else MigrationRisk.NONE
    let chunkCount := assessments.length
    let summary :=
      if chunkCount > 1 then
        "Analyzed " ++ toString chunkCount ++ " file chunks. " ++ highestRisk.risk_summary
      else highestRisk.risk_summary
    { risk_level := highestRisk.risk_level
      risk_summary := summary
      risk_factors := allRiskFactors
      reviewer_focus_areas := allFocusAreas
      missing_tests := anyMissingTests
      migration_risk := combinedMigrationRisk }

/-- The maximum of two risk levels under the order LOW < MEDIUM < HIGH,
with the left argument kept on ties (matching `pickHigher`). -/
def maxLevel (a b : RiskLevel) : RiskLevel :=
  if riskLevelOrder a < riskLevelOrder b then b else a

/-- The maximum risk level of a list (LOW for the empty list). -/
def listLevelMax (ls : List RiskLevel) : RiskLevel := ls.foldl maxLevel RiskLevel.LOW

/-! ## Errors (`src/types/errors.ts`) -/

/-- A thrown JavaScript `Error` as far as `errors.ts` inspects it: a message,
an optional numeric `status` and an optional `response.status`.  (The
`isError` type guard of the source is the identity here, since every value
of this type models an `Error` instance.) -/
structure JsError where
  message : String
  status : Option Int := none
  responseStatus : Option Int := none
deriving DecidableEq

/-- `isLLMApiError` (errors.ts lines 18-24): the error carries a numeric
`status` or `response.status`. -/
def isLLMApiError (e : JsError) : Bool :=
  e.status.isSome || e.responseStatus.isSome

/-- `pat` occurs as a contiguous substring of `s` starting at some position. -/
def listIncludes : List Char → List Char → Bool
  | s, pat =>
    if pat.isPrefixOf s then true
    else
      match s with
      | [] => false
      | _ :: rest => listIncludes rest pat

/-- `str.includes(pat)`: `pat` occurs as a contiguous substring of `str`. -/
def strIncludes (s pat : String) : Bool := listIncludes s.toList pat.toList

/-- ASCII lowercase conversion, the fragment of `toLowerCase()` relevant to
the all-ASCII messages involved. -/
def charToLower (c : Char) : Char :=
  if 'A' ≤ c ∧ c ≤ 'Z' then Char.ofNat (c.toNat + 32) else c

/-- `message.toLowerCase()` on the character list of a message. -/
def lowerString (s : String) : String := String.mk (s.toList.map charToLower)

/-- `isSizeLimitError` (errors.ts lines 49-73): lowercase the message and
look for one of the size/rate-limit keywords; otherwise fall back to the
`status === 413` check for API errors. -/
def isSizeLimitError (e : JsError) : Bool :=
  let errorMessage := lowerString e.message
  let hasLimitKeyword :=
    strIncludes errorMessage "413" ||
    strIncludes errorMessage "request too large" ||
    strIncludes errorMessage "tokens per minute" ||
    strIncludes errorMessage "tpm" ||
    strIncludes errorMessage "too large"
  if hasLimitKeyword then true
  else if isLLMApiError e then
    (match e.status with
     | some s => some s
     | none => e.responseStatus) = some 413
  else false

/-- The branch taken by the chunk-analysis `catch` block (riskAnalyzer.ts
lines 326-338 and 383-386): `true` means the chunk is re-split into
sub-chunks, `false` means the error is re-thrown. -/
def chunkCatchSubdivides (e : JsError) : Bool := isSizeLimitError e

/-! ## JSON values and `JSON.parse` (used by `parseAndValidate`) -/

/-- A JSON value.  Numbers keep their source lexeme (no field of the risk
schema is numeric, so numeric values only ever need to be rejected). -/
inductive Json where
  | null
  | bool (b : Bool)
  | num (lexeme : String)
  | str (s : String)
  | arr (elems : List Json)
  | obj (fields : List (String × Json))

/-- JSON insignificant whitespace. -/
def jsonWs (c : Char) : Bool := c = ' ' || c = '\t' || c = '\n' || c = '\r'

def skipJsonWs (s : List Char) : List Char := s.dropWhile jsonWs

def isDigitChar (c : Char) : Bool := '0' ≤ c && c ≤ '9'

def hexDigitVal (c : Char) : Option Nat :=
  if '0' ≤ c ∧ c ≤ '9' then some (c.toNat - '0'.toNat)
  else if 'a' ≤ c ∧ c ≤ 'f' then some (c.toNat - 'a'.toNat + 10)
  else if 'A' ≤ c ∧ c ≤ 'F' then some (c.toNat - 'A'.toNat + 10)
  else none

/-- Model of the JSON string scanner: reads characters after the opening
quote up to the closing quote, handling the escape sequences of the JSON
grammar.  Returns the decoded string and the remaining input. -/
def scanJsonString (acc : List Char) : List Char → Except String (String × List Char)
  | [] => Except.error "Unterminated string in JSON"
  | '"' :: rest => Except.ok (String.mk acc.reverse, rest)
  | '\\' :: rest =>
    match rest with
    | [] => Except.error "Bad escape in JSON"
    | e :: rest2 =>
      if e = '"' then scanJsonString ('"' :: acc) rest2
      else if e = '\\' then scanJsonString ('\\' :: acc) rest2
      else if e = '/' then scanJsonString ('/' :: acc) rest2
      else if e = 'b' then scanJsonString ('\x08' :: acc) rest2
      else if e = 'f' then scanJsonString ('\x0c' :: acc) rest2
      else if e = 'n' then scanJsonString ('\n' :: acc) rest2
      else if e = 'r' then scanJsonString ('\r' :: acc) rest2
      else if e = 't' then scanJsonString ('\t' :: acc) rest2
      else if e = 'u' then
        match rest2 with
        | h1 :: h2 :: h3 :: h4 :: rest3 =>
          match hexDigitVal h1, hexDigitVal h2, hexDigitVal h3, hexDigitVal h4 with
          | some v1, some v2, some v3, some v4 =>
            let n := ((v1 * 16 + v2) * 16 + v3) * 16 + v4
            if h : n.isValidChar then scanJsonString (Char.ofNatAux n h :: acc) rest3
            else Except.error "Bad unicode escape in JSON"
          | _, _, _, _ => Except.error "Bad unicode escape in JSON"
        | _ => Except.error "Bad unicode escape in JSON"
      else Except.error "Bad escape in JSON"
  | c :: rest => scanJsonString (c :: acc) rest

/-- Model of the JSON number scanner: `-?int frac? exp?`.  The lexeme is
returned uninterpreted. -/
def scanJsonNumber (s : List Char) : Except String (List Char × List Char) :=
  let (sign, s1) :=
    match s with
    | '-' :: r => (['-'], r)
    | _ => (([] : List Char), s)
  let (ds, s2) := s1.span isDigitChar
  if ds = [] then Except.error "Unexpected token in JSON"
  else
    let (frac, s3) :=
      match s2 with
      | '.' :: r =>
        let (fs, r2) := r.span isDigitChar
        ('.' :: fs, r2)
      | _ => (([] : List Char), s2)
    if frac = ['.'] then Except.error "Unexpected token in JSON"
    else
      match s3 with
      | e :: r =>
        if e = 'e' ∨ e = 'E' then
          let (esign, r1) :=
            match r with
            | '+' :: r2 => (['+'], r2)
            | '-' :: r2 => (['-'], r2)
            | _ => (([] : List Char), r)
          let (es, r2) := r1.span isDigitChar
          if es = [] then Except.error "Unexpected token in JSON"
          else Except.ok (sign ++ ds ++ frac ++ e :: esign ++ es, r2)
        else Except.ok (sign ++ ds ++ frac, s3)
      | [] => Except.ok (sign ++ ds ++ frac, s3)

mutual

/-- Fuel-indexed recursive-descent parser for one JSON value.  The fuel only
bounds the recursion; `jsonParse` supplies enough for any input it is given. -/
def parseJsonValue : Nat → List Char → Except String (Json × List Char)
  | 0, _ => Except.error "JSON parser out of fuel"
  | fuel + 1, s =>
    match skipJsonWs s with
    | [] => Except.error "Unexpected end of JSON input"
    | '"' :: rest =>
      match scanJsonString [] rest with
      | Except.error m => Except.error m
      | Except.ok (str, rest2) => Except.ok (Json.str str, rest2)
    | '[' :: rest =>
      match skipJsonWs rest with
      | ']' :: rest2 => Except.ok (Json.arr [], rest2)
      | rest2 => parseJsonArrayElems fuel rest2 []
    | '\x7b' :: rest =>
      match skipJsonWs rest with
      | '\x7d' :: rest2 => Except.ok (Json.obj [], rest2)
      | rest2 => parseJsonObjectFields fuel rest2 []
    | 't' :: rest =>
      match rest with
      | 'r' :: 'u' :: 'e' :: rest2 => Except.ok (Json.bool true, rest2)
      | _ => Except.error "Unexpected token in JSON"
    | 'f' :: rest =>
      match rest with
      | 'a' :: 'l' :: 's' :: 'e' :: rest2 => Except.ok (Json.bool false, rest2)
      | _ => Except.error "Unexpected token in JSON"
    | 'n' :: rest =>
      match rest with
      | 'u' :: 'l' :: 'l' :: rest2 => Except.ok (Json.null, rest2)
      | _ => Except.error "Unexpected token in JSON"
    | c :: rest =>
      if c = '-' ∨ isDigitChar c then
        match scanJsonNumber (c :: rest) with
        | Except.error m => Except.error m
        | Except.ok (lex, rest2) => Except.ok (Json.num (String.mk lex), rest2)
      else Except.error "Unexpected token in JSON"

/-- Parses `value (',' value)* ']'` with at least one element. -/
def parseJsonArrayElems : Nat → List Char → List Json → Except String (Json × List Char)
  | 0, _, _ => Except.error "JSON parser out of fuel"
  | fuel + 1, s, acc =>
    match parseJsonValue fuel s with
    | Except.error m => Except.error m
    | Except.ok (v, rest) =>
      match skipJsonWs rest with
      | ',' :: rest2 => parseJsonArrayElems fuel rest2 (v :: acc)
      | ']' :: rest2 => Except.ok (Json.arr (v :: acc).reverse, rest2)
      | _ => Except.error "Expected comma or closing bracket in JSON array"

/-- Parses `string ':' value (',' string ':' value)* '\x7d'` with at least
one member. -/
def parseJsonObjectFields : Nat → List Char → List (String × Json) →
    Except String (Json × List Char)
  | 0, _, _ => Except.error "JSON parser out of fuel"
  | fuel + 1, s, acc =>
    match skipJsonWs s with
    | '"' :: rest =>
      match scanJsonString [] rest with
      | Except.error m => Except.error m
      | Except.ok (key, rest2) =>
        match skipJsonWs rest2 with
        | ':' :: rest3 =>
          match parseJsonValue fuel rest3 with
          | Except.error m => Except.error m
          | Except.ok (v, rest4) =>
            match skipJsonWs rest4 with
            | ',' :: rest5 => parseJsonObjectFields fuel rest5 ((key, v) :: acc)
            | '\x7d' :: rest5 => Except.ok (Json.obj (acc.reverse ++ [(key, v)]), rest5)
            | _ => Except.error "Expected comma or closing brace in JSON object"
        | _ => Except.error "Expected colon in JSON object"
    | _ => Except.error "Expected string key in JSON object"

end

/-- Model of `JSON.parse`: parse one value and require only whitespace to
remain.  (Error messages are modelled, not byte-for-byte V8 output; nothing
in the source depends on the parser's own wording.) -/
def jsonParse (s : List Char) : Except String Json :=
  match parseJsonValue (2 * s.length + 4) s with
  | Except.error m => Except.error m
  | Except.ok (j, rest) =>
    if skipJsonWs rest = [] then Except.ok j
    else Except.error "Unexpected non-whitespace character after JSON"

/-! ## Schema validation (`src/schema.ts`, `RiskSchema.parse`) -/

/-- Property lookup on a parsed JSON object.  `JSON.parse` keeps the last
occurrence of a duplicated key, hence the reversed search. -/
def lookupField (fields : List (String × Json)) (key : String) : Option Json :=
  List.lookup key fields.reverse

/-- `z.enum(["LOW", "MEDIUM", "HIGH"])` on the looked-up `risk_level`. -/
def asRiskLevel (o : Option Json) : Except String RiskLevel :=
  match o with
  | none => Except.error "Required"
  | some (Json.str s) =>
    if s = "LOW" then Except.ok RiskLevel.LOW
    else if s = "MEDIUM" then Except.ok RiskLevel.MEDIUM
    else if s = "HIGH" then Except.ok RiskLevel.HIGH
    else Except.error "Invalid enum value"
  | some _ => Except.error "Invalid enum value"

/-- `z.enum(["NONE", "LOW", "HIGH"])` on the looked-up `migration_risk`. -/
def asMigrationRisk (o : Option Json) : Except String MigrationRisk :=
  match o with
  | none => Except.error "Required"
  | some (Json.str s) =>
    if s = "NONE" then Except.ok MigrationRisk.NONE
    else if s = "LOW" then Except.ok MigrationRisk.LOW
    else if s = "HIGH" then Except.ok MigrationRisk.HIGH
    else Except.error "Invalid enum value"
  | some _ => Except.error "Invalid enum value"

/-- `z.string()` on a looked-up field. -/
def asString (o : Option Json) : Except String String :=
  match o with
  | none => Except.error "Required"
  | some (Json.str s) => Except.ok s
  | some _ => Except.error "Expected string"

/-- `z.boolean()` on a looked-up field. -/
def asBool (o : Option Json) : Except String Bool :=
  match o with
  | none => Except.error "Required"
  | some (Json.bool b) => Except.ok b
  | some _ => Except.error "Expected boolean"

/-- Elementwise `z.string()` inside `z.array(z.string())`. -/
def allStrings : List Json → Except String (List String)
  | [] => Except.ok []
  | Json.str s :: rest =>
    match allStrings rest with
    | Except.error m => Except.error m
    | Except.ok l => Except.ok (s :: l)
  | _ :: _ => Except.error "Expected string"

/-- `z.array(z.string())` on a looked-up field. -/
def asStringArray (o : Option Json) : Except String (List String) :=
  match o with
  | none => Except.error "Required"
  | some (Json.arr xs) => allStrings xs
  | some _ => Except.error "Expected array"

/-- The field checks of `RiskSchema.parse` on the property list of a JSON
object: every declared field must be present with the declared type; unknown
keys are ignored (Zod's default strip behaviour). -/
def riskSchemaParseFields (fields : List (String × Json)) : Except String RiskAssessment :=
  match asRiskLevel (lookupField fields "risk_level") with
    | Except.error m => Except.error m
    | Except.ok lvl =>
      match asString (lookupField fields "risk_summary") with
      | Except.error m => Except.error m
      | Except.ok summary =>
        match asStringArray (lookupField fields "risk_factors") with
        | Except.error m => Except.error m
        | Except.ok factors =>
          match asStringArray (lookupField fields "reviewer_focus_areas") with
          | Except.error m => Except.error m
          | Except.ok areas =>
            match asBool (lookupField fields "missing_tests") with
            | Except.error m => Except.error m
            | Except.ok mt =>
              match asMigrationRisk (lookupField fields "migration_risk") with
              | Except.error m => Except.error m
              | Except.ok mig =>
                Except.ok
                  { risk_level := lvl
                    risk_summary := summary
                    risk_factors := factors
                    reviewer_focus_areas := areas
                    missing_tests := mt
                    migration_risk := mig }

/-- `RiskSchema.parse` (schema.ts lines 269-276). -/
def riskSchemaParse (j : Json) : Except String RiskAssessment :=
  match j with
  | Json.obj fields => riskSchemaParseFields fields
  | _ => Except.error "Expected object"

/-- JSON encoding of an assessment (the shape the completion client is asked
to produce, §6 of the spec); used to state that a synthesised assessment
satisfies the same schema as an LLM-derived one. -/
def riskLevelToString : RiskLevel → String
  | RiskLevel.LOW => "LOW"
  | RiskLevel.MEDIUM => "MEDIUM"
  | RiskLevel.HIGH => "HIGH"

def migrationRiskToString : MigrationRisk → String
  | MigrationRisk.NONE => "NONE"
  | MigrationRisk.LOW => "LOW"
  | MigrationRisk.HIGH => "HIGH"

def riskToJson (a : RiskAssessment) : Json :=
  Json.obj
    [ ("risk_level", Json.str (riskLevelToString a.risk_level)),
      ("risk_summary", Json.str a.risk_summary),
      ("risk_factors", Json.arr (a.risk_factors.map Json.str)),
      ("reviewer_focus_areas", Json.arr (a.reviewer_focus_areas.map Json.str)),
      ("missing_tests", Json.bool a.missing_tests),
      ("migration_risk", Json.str (migrationRiskToString a.migration_risk)) ]

/-! ## `RiskAnalyzer.parseAndValidate` (riskAnalyzer.ts lines 513-537) -/

/-- `s.endsWith(pat)` over character lists. -/
def endsWithChars (s pat : List Char) : Bool := pat.reverse.isPrefixOf s.reverse

/-- `s.dropRight(n)` over character lists. -/
def dropRightChars (s : List Char) (n : Nat) : List Char := s.take (s.length - n)

/-- The fence stripping at riskAnalyzer.ts lines 515-518: when the trimmed
content starts with three backticks, apply
`replace(/^(three backticks)(json)?\n?/, "")` and `replace(/\n?(three backticks)$/, "")`. -/
def stripFences (s : List Char) : List Char :=
  if ("```").toList.isPrefixOf s then
    let s1 :=
      if ("```json\n").toList.isPrefixOf s then s.drop 8
      else if ("```json").toList.isPrefixOf s then s.drop 7
      else if ("```\n").toList.isPrefixOf s then s.drop 4
      else s.drop 3
    if endsWithChars s1 ("\n```").toList then dropRightChars s1 4
    else if endsWithChars s1 ("```").toList then dropRightChars s1 3
    else s1
  else s

/-- `parseAndValidate` (riskAnalyzer.ts lines 513-537): trim, strip fences,
`JSON.parse` (a failure message embeds the first 200 characters of the raw
content), then `RiskSchema.parse`. -/
def parseAndValidate (content : String) : Except JsError RiskAssessment :=
  let cleaned := stripFences (trimChars content.toList)
  match jsonParse cleaned with
  | Except.error m =>
    Except.error
      { message := "Invalid JSON response: " ++ m ++ ". Content: " ++
          String.mk (content.toList.take 200) ++ "..." }
  | Except.ok parsed =>
    match riskSchemaParse parsed with
    | Except.error m =>
      Except.error { message := "Response validation failed: " ++ m }
    | Except.ok a => Except.ok a

/-- `true` iff the `Except` is a failure. -/
def exceptFailed {ε α : Type} : Except ε α → Bool
  | Except.error _ => true
  | Except.ok _ => false

instance exceptDecEq {ε α : Type} [DecidableEq ε] [DecidableEq α] :
    DecidableEq (Except ε α) := fun x y =>
  match x, y with
  | Except.ok a, Except.ok b =>
    if h : a = b then Decidable.isTrue (by rw [h])
    else Decidable.isFalse (fun he => by injection he with h'; exact h h')
  | Except.error a, Except.error b =>
    if h : a = b then Decidable.isTrue (by rw [h])
    else Decidable.isFalse (fun he => by injection he with h'; exact h h')
  | Except.ok _, Except.error _ => Decidable.isFalse (fun he => Except.noConfusion he)
  | Except.error _, Except.ok _ => Decidable.isFalse (fun he => Except.noConfusion he)

/-- Whether a parse-and-validate failure on `content` would be classified as
a size-limit error by the chunk-analysis catch logic (`false` when the
content validates successfully). -/
def validationFailureSizeClassified (content : String) : Bool :=
  match parseAndValidate content with
  | Except.error e => chunkCatchSubdivides e
  | Except.ok _ => false

/-! ## Concrete inputs used by counterexamples and witnesses -/

/-- A completion payload that is not JSON at all, whose text happens to
contain the phrase "too large". -/
def sizeWordContent : String := "Sorry, the diff is too large to analyze."

/-- A well-formed completion payload wrapped in markdown code fences. -/
def fencedContent : String :=
  "```json\n\x7b\"risk_level\":\"LOW\",\"risk_summary\":\"ok\",\"risk_factors\":[\"a\"],\"reviewer_focus_areas\":[\"b\"],\"missing_tests\":false,\"migration_risk\":\"NONE\"\x7d\n```"

/-- The assessment encoded inside `fencedContent`. -/
def fencedAssessment : RiskAssessment :=
  { risk_level := RiskLevel.LOW
    risk_summary := "ok"
    risk_factors := ["a"]
    reviewer_focus_areas := ["b"]
    missing_tests := false
    migration_risk := MigrationRisk.NONE }

/-- Concrete assessments used to instantiate the combiner theorems. -/
def demoLow : RiskAssessment :=
  { risk_level := RiskLevel.LOW
    risk_summary := "low summary"
    risk_factors := ["factor low"]
    reviewer_focus_areas := ["area low"]
    missing_tests := false
    migration_risk := MigrationRisk.NONE }

def demoMedium : RiskAssessment :=
  { risk_level := RiskLevel.MEDIUM
    risk_summary := "medium summary"
    risk_factors := ["factor medium"]
    reviewer_focus_areas := ["area medium"]
    missing_tests := false
    migration_risk := MigrationRisk.LOW }

def demoHigh : RiskAssessment :=
  { risk_level := RiskLevel.HIGH
    risk_summary := "high summary"
    risk_factors := ["factor high"]
    reviewer_focus_areas := ["area high"]
    missing_tests := true
    migration_risk := MigrationRisk.HIGH }

/-! ## Lemmas about split / join -/

theorem splitLines_ne_nil (s : List Char) : splitLines s ≠ [] := by
  induction s with
  | nil => simp [splitLines]
  | cons c cs ih =>
    simp only [splitLines]
    split
    · simp
    · split
      · simp
      · simp

theorem joinLines_cons (l : List Char) (ls : List (List Char)) (h : ls ≠ []) :
    joinLines (l :: ls) = l ++ '\n' :: joinLines ls := by
  cases ls with
  | nil => exact absurd rfl h
  | cons x xs => rfl

theorem joinLines_splitLines (s : List Char) : joinLines (splitLines s) = s := by
  induction s with
  | nil => rfl
  | cons c cs ih =>
    simp only [splitLines]
    split
    · rename_i hc
      rw [joinLines_cons _ _ (splitLines_ne_nil cs), ih, hc]
      rfl
    · obtain ⟨l, ls, e⟩ := List.exists_cons_of_ne_nil (splitLines_ne_nil cs)
      rw [e]
      cases ls with
      | nil =>
        have : joinLines [l] = cs := by rw [← e] at *; exact ih
        simpa [joinLines] using this
      | cons l2 ls2 =>
        have : joinLines (l :: l2 :: ls2) = cs := by rw [← e] at *; exact ih
        rw [joinLines_cons _ _ (by simp)] at this
        simp only [joinLines_cons _ _ (List.cons_ne_nil l2 ls2)]
        rw [List.cons_append, ← this]

theorem splitLines_no_newline (s : List Char) : ∀ l ∈ splitLines s, '\n' ∉ l := by
  induction s with
  | nil => intro l hl; simp [splitLines] at hl; simp [hl]
  | cons c cs ih =>
    intro l hl
    simp only [splitLines] at hl
    split at hl
    · rcases List.mem_cons.mp hl with h | h
      · simp [h]
      · exact ih l h
    · rename_i hc
      obtain ⟨l0, ls, e⟩ := List.exists_cons_of_ne_nil (splitLines_ne_nil cs)
      rw [e] at hl
      rcases List.mem_cons.mp hl with h | h
      · subst h
        intro hmem
        rcases List.mem_cons.mp hmem with h' | h'
        · exact hc h'.symm
        · exact ih l0 (by rw [e]; exact List.mem_cons_self _ _) h'
      · exact ih l (by rw [e]; exact List.mem_cons_of_mem _ h)

theorem splitLines_single (s : List Char) (h : '\n' ∉ s) : splitLines s = [s] := by
  induction s with
  | nil => rfl
  | cons c cs ih =>
    have hc : c ≠ '\n' := fun e => h (e ▸ List.mem_cons_self c cs)
    have hcs : '\n' ∉ cs := fun e => h (List.mem_cons_of_mem _ e)
    simp only [splitLines, if_neg (fun e => hc e), ih hcs]

theorem joinLines_append (xs ys : List (List Char)) (hx : xs ≠ []) (hy : ys ≠ []) :
    joinLines (xs ++ ys) = joinLines xs ++ '\n' :: joinLines ys := by
  induction xs with
  | nil => exact absurd rfl hx
  | cons x xs ih =>
    cases xs with
    | nil =>
      rw [List.singleton_append, joinLines_cons _ _ hy]
      rfl
    | cons x2 xs2 =>
      rw [List.cons_append, joinLines_cons _ _ (by simp), ih (by simp),
        joinLines_cons _ _ (List.cons_ne_nil x2 xs2), List.append_assoc]
      rfl

theorem flatten_ne_nil_of_head (g : List (List Char)) (gs : List (List (List Char)))
    (hg : g ≠ []) : (g :: gs).flatten ≠ [] := by
  simp only [List.flatten_cons]
  intro h
  exact hg (List.append_eq_nil.mp h).1

theorem joinLines_map_flatten (gs : List (List (List Char)))
    (h : ∀ g ∈ gs, g ≠ []) :
    joinLines (gs.map joinLines) = joinLines gs.flatten := by
  induction gs with
  | nil => rfl
  | cons g gs ih =>
    cases gs with
    | nil => simp [joinLines]
    | cons g2 gs2 =>
      have hg : g ≠ [] := h g (List.mem_cons_self _ _)
      have hrest : ∀ x ∈ g2 :: gs2, x ≠ [] := fun x hx => h x (List.mem_cons_of_mem _ hx)
      have hflat : (g2 :: gs2).flatten ≠ [] :=
        flatten_ne_nil_of_head g2 gs2 (hrest g2 (List.mem_cons_self _ _))
      rw [List.flatten_cons, joinLines_append g _ hg hflat, List.map_cons,
        joinLines_cons _ _ (by simp), ih hrest]

/-! ## Lemmas about the splitter loop -/

theorem chunkGo_cons (max : Nat) (line : List Char) (rest cur : List (List Char)) (size : Nat) :
    chunkGo max (line :: rest) cur size =
      if cur ≠ [] ∧ (size + (line.length + 1) > max ∨ isGitBoundary line = true) then
        cur :: chunkGo max rest [line] (line.length + 1)
      else chunkGo max rest (cur ++ [line]) (size + (line.length + 1)) := by
  by_cases hc : cur = []
  · subst hc
    simp [chunkGo]
  · by_cases h1 : size + (line.length + 1) > max
    · simp [chunkGo, h1, hc]
    · by_cases h2 : isGitBoundary line = true
      · simp [chunkGo, h1, h2, hc]
      · simp [chunkGo, h1, h2, hc]

theorem chunkGo_flatten (max : Nat) (lines : List (List Char)) :
    ∀ (cur : List (List Char)) (size : Nat),
      (chunkGo max lines cur size).flatten = cur ++ lines := by
  induction lines with
  | nil =>
    intro cur size
    by_cases hc : cur = [] <;> simp [chunkGo, hc]
  | cons line rest ih =>
    intro cur size
    rw [chunkGo_cons]
    split
    · simp [ih]
    · simp [ih]

theorem chunkGo_mem_ne_nil (max : Nat) (lines : List (List Char)) :
    ∀ (cur : List (List Char)) (size : Nat) (g : List (List Char)),
      g ∈ chunkGo max lines cur size → g ≠ [] := by
  induction lines with
  | nil =>
    intro cur size g hg
    by_cases hc : cur = []
    · simp [chunkGo, hc] at hg
    · simp [chunkGo, hc] at hg
      rw [hg]
      exact hc
  | cons line rest ih =>
    intro cur size g hg
    rw [chunkGo_cons] at hg
    split at hg
    · rename_i hcond
      rcases List.mem_cons.mp hg with h | h
      · rw [h]; exact hcond.1
      · exact ih _ _ _ h
    · exact ih _ _ _ hg

theorem chunkGo_mem_lines (max : Nat) (lines : List (List Char)) :
    ∀ (cur : List (List Char)) (size : Nat) (g : List (List Char)) (l : List Char),
      g ∈ chunkGo max lines cur size → l ∈ g → l ∈ cur ∨ l ∈ lines := by
  induction lines with
  | nil =>
    intro cur size g l hg hl
    by_cases hc : cur = []
    · simp [chunkGo, hc] at hg
    · simp [chunkGo, hc] at hg
      rw [hg] at hl
      exact Or.inl hl
  | cons line rest ih =>
    intro cur size g l hg hl
    rw [chunkGo_cons] at hg
    split at hg
    · rcases List.mem_cons.mp hg with h | h
      · rw [h] at hl; exact Or.inl hl
      · rcases ih _ _ _ _ h hl with h' | h'
        · rcases List.mem_singleton.mp h' with h''
          exact Or.inr (h'' ▸ List.mem_cons_self _ _)
        · exact Or.inr (List.mem_cons_of_mem _ h')
    · rcases ih _ _ _ _ hg hl with h' | h'
      · rcases List.mem_append.mp h' with h'' | h''
        · exact Or.inl h''
        · exact Or.inr (List.mem_singleton.mp h'' ▸ List.mem_cons_self _ _)
      · exact Or.inr (List.mem_cons_of_mem _ h')

/-! ## Size bounds and preservation for the splitter -/

/-- The running `currentSize` of a group of lines: each line contributes its
length plus one for the newline (riskAnalyzer.ts line 102). -/
def lineSizeSum (g : List (List Char)) : Nat := (g.map (fun l => l.length + 1)).sum

theorem lineSizeSum_append_single (g : List (List Char)) (l : List Char) :
    lineSizeSum (g ++ [l]) = lineSizeSum g + (l.length + 1) := by
  simp [lineSizeSum]

theorem joinLines_length (g : List (List Char)) (h : g ≠ []) :
    (joinLines g).length + 1 = lineSizeSum g := by
  induction g with
  | nil => exact absurd rfl h
  | cons l ls ih =>
    cases ls with
    | nil => simp [joinLines, lineSizeSum]
    | cons l2 ls2 =>
      rw [joinLines_cons _ _ (by simp)]
      have := ih (by simp)
      simp only [lineSizeSum, List.map_cons, List.sum_cons] at *
      simp only [List.length_append, List.length_cons]
      omega

/-- Invariant: assuming `size` is the line-size sum of the current chunk and
any multi-line current chunk fits the budget, every multi-line group the
loop flushes fits the budget. -/
theorem chunkGo_multi_bound (max : Nat) (lines : List (List Char)) :
    ∀ (cur : List (List Char)) (size : Nat),
      size = lineSizeSum cur →
      (2 ≤ cur.length → size ≤ max) →
      ∀ g ∈ chunkGo max lines cur size, 2 ≤ g.length → lineSizeSum g ≤ max := by
  induction lines with
  | nil =>
    intro cur size hsum hbound g hg hlen
    by_cases hc : cur = []
    · simp [chunkGo, hc] at hg
    · simp [chunkGo, hc] at hg
      subst hg
      rw [← hsum]
      exact hbound hlen
  | cons line rest ih =>
    intro cur size hsum hbound g hg hlen
    rw [chunkGo_cons] at hg
    split at hg
    · rcases List.mem_cons.mp hg with h | h
      · subst h
        rw [← hsum]
        exact hbound hlen
      · refine ih [line] (line.length + 1) (by simp [lineSizeSum]) (by simp) g h hlen
    · rename_i hcond
      push_neg at hcond
      refine ih (cur ++ [line]) (size + (line.length + 1))
        (by rw [hsum, lineSizeSum_append_single]) ?_ g hg hlen
      intro h2
      by_cases hc : cur = []
      · simp [hc] at h2
      · have := hcond hc
        omega

/-- If the running size already exceeds the budget, the current chunk is
flushed unchanged as the next group. -/
theorem chunkGo_self_mem (max : Nat) (lines : List (List Char)) :
    ∀ (cur : List (List Char)) (size : Nat),
      cur ≠ [] → size > max → cur ∈ chunkGo max lines cur size := by
  induction lines with
  | nil =>
    intro cur size hc hs
    simp [chunkGo, hc]
  | cons line rest ih =>
    intro cur size hc hs
    rw [chunkGo_cons]
    rw [if_pos ⟨hc, Or.inl (by omega)⟩]
    exact List.mem_cons_self _ _

/-- Every line longer than the budget ends up alone in its own group. -/
theorem chunkGo_oversized_singleton (max : Nat) (lines : List (List Char)) :
    ∀ (cur : List (List Char)) (size : Nat) (line : List Char),
      line ∈ lines → line.length + 1 > max → size = lineSizeSum cur →
      [line] ∈ chunkGo max lines cur size := by
  induction lines with
  | nil => intro _ _ _ h; simp at h
  | cons l rest ih =>
    intro cur size line hmem hbig hsum
    rw [chunkGo_cons]
    rcases List.mem_cons.mp hmem with h | h
    · subst h
      by_cases hc : cur = []
      · rw [if_neg (by simp [hc])]
        subst hc
        have hz : size = 0 := by simp [hsum, lineSizeSum]
        subst hz
        simpa using chunkGo_self_mem max rest [line] (line.length + 1) (by simp) (by omega)
      · rw [if_pos ⟨hc, Or.inl (by omega)⟩]
        exact List.mem_cons_of_mem _
          (chunkGo_self_mem max rest [line] (line.length + 1) (by simp) (by omega))
    · split
      · exact List.mem_cons_of_mem _
          (ih [l] (l.length + 1) line h hbig (by simp [lineSizeSum]))
      · exact ih _ _ line h hbig (by rw [hsum, lineSizeSum_append_single])

/-! ## Lemmas about the combiner -/

theorem maxLevel_low_left (x : RiskLevel) : maxLevel RiskLevel.LOW x = x := by
  cases x <;> rfl

theorem levelOrder_maxLevel (a b : RiskLevel) :
    riskLevelOrder (maxLevel a b) = Nat.max (riskLevelOrder a) (riskLevelOrder b) := by
  cases a <;> cases b <;> rfl

theorem maxLevel_left_comm (e x y : RiskLevel) :
    maxLevel (maxLevel e x) y = maxLevel (maxLevel e y) x := by
  cases e <;> cases x <;> cases y <;> rfl

theorem pickHigher_level (m a : RiskAssessment) :
    (pickHigher m a).risk_level = maxLevel m.risk_level a.risk_level := by
  unfold pickHigher maxLevel
  split <;> rfl

theorem foldl_pickHigher_level (rest : List RiskAssessment) :
    ∀ a : RiskAssessment,
      (rest.foldl pickHigher a).risk_level =
        rest.foldl (fun m x => maxLevel m x.risk_level) a.risk_level := by
  induction rest with
  | nil => intro a; rfl
  | cons r rest ih =>
    intro a
    simp only [List.foldl_cons]
    rw [ih (pickHigher a r), pickHigher_level]

theorem foldl_maxLevel_perm {xs ys : List RiskLevel} (h : xs.Perm ys) :
    ∀ e : RiskLevel, xs.foldl maxLevel e = ys.foldl maxLevel e := by
  induction h with
  | nil => intro e; rfl
  | cons x _ ih =>
    intro e
    simp only [List.foldl_cons]
    exact ih (maxLevel e x)
  | swap x y l =>
    intro e
    simp only [List.foldl_cons]
    rw [maxLevel_left_comm]
  | trans _ _ ih1 ih2 =>
    intro e
    rw [ih1 e, ih2 e]

theorem foldl_maxLevel_init_le (ls : List RiskLevel) :
    ∀ e : RiskLevel, riskLevelOrder e ≤ riskLevelOrder (ls.foldl maxLevel e) := by
  induction ls with
  | nil => intro e; exact Nat.le_refl _
  | cons x ls ih =>
    intro e
    simp only [List.foldl_cons]
    refine Nat.le_trans ?_ (ih (maxLevel e x))
    rw [levelOrder_maxLevel]
    exact Nat.le_max_left _ _

theorem foldl_maxLevel_mem_le (ls : List RiskLevel) :
    ∀ (e x : RiskLevel), x ∈ ls → riskLevelOrder x ≤ riskLevelOrder (ls.foldl maxLevel e) := by
  induction ls with
  | nil => intro _ x h; simp at h
  | cons y ls ih =>
    intro e x hx
    simp only [List.foldl_cons]
    rcases List.mem_cons.mp hx with h | h
    · subst h
      refine Nat.le_trans ?_ (foldl_maxLevel_init_le ls (maxLevel e x))
      rw [levelOrder_maxLevel]
      exact Nat.le_max_right _ _
    · exact ih _ x h

/-- For every non-empty list, the combined `risk_level` is the fold of
`maxLevel` over the inputs' levels. -/
theorem combineAssessments_level (l : List RiskAssessment) (h : l ≠ []) :
    (combineAssessments l).risk_level = listLevelMax (l.map (fun a => a.risk_level)) := by
  match l with
  | [a] =>
    simp only [combineAssessments, listLevelMax, List.map_cons, List.map_nil,
      List.foldl_cons, List.foldl_nil, maxLevel_low_left]
  | a :: b :: rest =>
    show ((b :: rest).foldl pickHigher a).risk_level = _
    rw [foldl_pickHigher_level]
    conv_rhs => rw [listLevelMax, List.map_cons, List.foldl_cons]
    rw [maxLevel_low_left, List.foldl_map]

theorem setAdd_mem (acc : List String) (x s : String) :
    s ∈ setAdd acc x ↔ s ∈ acc ∨ s = x := by
  unfold setAdd
  split
  · rename_i hin
    constructor
    · exact fun h => Or.inl h
    · rintro (h | rfl)
      · exact h
      · exact hin
  · simp

theorem addAll_mem (xs : List String) :
    ∀ (acc : List String) (s : String), s ∈ addAll acc xs ↔ s ∈ acc ∨ s ∈ xs := by
  induction xs with
  | nil => intro acc s; simp [addAll]
  | cons x xs ih =>
    intro acc s
    show s ∈ addAll (setAdd acc x) xs ↔ _
    rw [ih, setAdd_mem, or_assoc, List.mem_cons]

theorem foldl_addAll_mem (f : RiskAssessment → List String) (l : List RiskAssessment) :
    ∀ (acc : List String) (s : String),
      s ∈ l.foldl (fun acc x => addAll acc (f x)) acc ↔ s ∈ acc ∨ ∃ a ∈ l, s ∈ f a := by
  induction l with
  | nil => intro acc s; simp
  | cons a l ih =>
    intro acc s
    simp only [List.foldl_cons]
    rw [ih, addAll_mem]
    constructor
    · rintro ((h | h) | ⟨x, hx, hs⟩)
      · exact Or.inl h
      · exact Or.inr ⟨a, List.mem_cons_self _ _, h⟩
      · exact Or.inr ⟨x, List.mem_cons_of_mem _ hx, hs⟩
    · rintro (h | ⟨x, hx, hs⟩)
      · exact Or.inl (Or.inl h)
      · rcases List.mem_cons.mp hx with h' | h'
        · subst h'
          exact Or.inl (Or.inr hs)
        · exact Or.inr ⟨x, h', hs⟩

/-- Membership characterisation of the combined risk factors for lists of
length at least two. -/
theorem combineAssessments_factors_mem (a b : RiskAssessment) (rest : List RiskAssessment)
    (s : String) :
    (s ∈ (combineAssessments (a :: b :: rest)).risk_factors ↔
      ∃ x ∈ a :: b :: rest, s ∈ x.risk_factors) := by
  show s ∈ (a :: b :: rest).foldl (fun acc x => addAll acc x.risk_factors) [] ↔ _
  rw [foldl_addAll_mem (fun x => x.risk_factors)]
  simp

theorem combineAssessments_areas_mem (a b : RiskAssessment) (rest : List RiskAssessment)
    (s : String) :
    (s ∈ (combineAssessments (a :: b :: rest)).reviewer_focus_areas ↔
      ∃ x ∈ a :: b :: rest, s ∈ x.reviewer_focus_areas) := by
  show s ∈ (a :: b :: rest).foldl (fun acc x => addAll acc x.reviewer_focus_areas) [] ↔ _
  rw [foldl_addAll_mem (fun x => x.reviewer_focus_areas)]
  simp

theorem combineAssessments_missing (a b : RiskAssessment) (rest : List RiskAssessment) :
    (combineAssessments (a :: b :: rest)).missing_tests =
      (a :: b :: rest).any (fun x => x.missing_tests) := rfl

theorem combineAssessments_migration (a b : RiskAssessment) (rest : List RiskAssessment) :
    (combineAssessments (a :: b :: rest)).migration_risk =
      (if MigrationRisk.HIGH ∈ ((a :: b :: rest).map (fun x => x.migration_risk)).filter
            (fun m => m ≠ MigrationRisk.NONE) then MigrationRisk.HIGH
       else if MigrationRisk.LOW ∈ ((a :: b :: rest).map (fun x => x.migration_risk)).filter
            (fun m => m ≠ MigrationRisk.NONE) then MigrationRisk.LOW
       else MigrationRisk.NONE) := rfl

theorem mem_migration_filter (l : List RiskAssessment) (m : MigrationRisk)
    (hm : m ≠ MigrationRisk.NONE) :
    (m ∈ (l.map (fun x => x.migration_risk)).filter (fun m => m ≠ MigrationRisk.NONE) ↔
      ∃ x ∈ l, x.migration_risk = m) := by
  rw [List.mem_filter]
  simp only [List.mem_map]
  constructor
  · rintro ⟨⟨x, hx, he⟩, _⟩
    exact ⟨x, hx, he⟩
  · rintro ⟨x, hx, he⟩
    exact ⟨⟨x, hx, he⟩, by simpa using hm⟩

theorem any_eq_of_perm {l l' : List RiskAssessment} (h : l.Perm l')
    (f : RiskAssessment → Bool) : l.any f = l'.any f := by
  cases ha : l.any f
  · cases ha' : l'.any f
    · rfl
    · obtain ⟨x, hx, hfx⟩ := List.any_eq_true.mp ha'
      rw [List.any_eq_false] at ha
      exact absurd hfx (by simpa using ha x (h.mem_iff.mpr hx))
  · obtain ⟨x, hx, hfx⟩ := List.any_eq_true.mp ha
    exact (List.any_eq_true.mpr ⟨x, h.mem_iff.mp hx, hfx⟩).symm

/-! ## Lemmas about schema validation -/

theorem riskSchemaParse_ok_inv (fields : List (String × Json)) (a : RiskAssessment)
    (h : riskSchemaParse (Json.obj fields) = Except.ok a) :
    (∃ x, asRiskLevel (lookupField fields "risk_level") = Except.ok x) ∧
    (∃ x, asString (lookupField fields "risk_summary") = Except.ok x) ∧
    (∃ x, asStringArray (lookupField fields "risk_factors") = Except.ok x) ∧
    (∃ x, asStringArray (lookupField fields "reviewer_focus_areas") = Except.ok x) ∧
    (∃ x, asBool (lookupField fields "missing_tests") = Except.ok x) ∧
    (∃ x, asMigrationRisk (lookupField fields "migration_risk") = Except.ok x) := by
  replace h : riskSchemaParseFields fields = Except.ok a := h
  unfold riskSchemaParseFields at h
  cases h1 : asRiskLevel (lookupField fields "risk_level") <;> rw [h1] at h
  case error => cases h
  cases h2 : asString (lookupField fields "risk_summary") <;> rw [h2] at h
  case error => cases h
  cases h3 : asStringArray (lookupField fields "risk_factors") <;> rw [h3] at h
  case error => cases h
  cases h4 : asStringArray (lookupField fields "reviewer_focus_areas") <;> rw [h4] at h
  case error => cases h
  cases h5 : asBool (lookupField fields "missing_tests") <;> rw [h5] at h
  case error => cases h
  cases h6 : asMigrationRisk (lookupField fields "migration_risk") <;> rw [h6] at h
  case error => cases h
  exact ⟨⟨_, rfl⟩, ⟨_, rfl⟩, ⟨_, rfl⟩, ⟨_, rfl⟩, ⟨_, rfl⟩, ⟨_, rfl⟩⟩

theorem asRiskLevel_bad_enum (s : String) (h1 : s ≠ "LOW") (h2 : s ≠ "MEDIUM")
    (h3 : s ≠ "HIGH") :
    asRiskLevel (some (Json.str s)) = Except.error "Invalid enum value" := by
  simp [asRiskLevel, h1, h2, h3]

theorem asBool_ok_inv (o : Option Json) (b : Bool) (h : asBool o = Except.ok b) :
    o = some (Json.bool b) := by
  match o with
  | none => cases h
  | some (Json.bool b') =>
    cases h
    rfl
  | some Json.null => cases h
  | some (Json.num _) => cases h
  | some (Json.str _) => cases h
  | some (Json.arr _) => cases h
  | some (Json.obj _) => cases h

/-- The fallback assessment — for every diff size — encodes to JSON that
passes the same schema validation as an LLM-derived payload. -/
theorem fallback_schema_valid (n : Nat) :
    riskSchemaParse (riskToJson (createFallbackAssessment n)) =
      Except.ok (createFallbackAssessment n) := rfl

/-! ## Main splitter theorems -/

theorem splitDiffChunksUnfiltered_lossless (diff : List Char) (budget : Nat) :
    joinLines (splitDiffChunksUnfiltered diff budget) = diff := by
  unfold splitDiffChunksUnfiltered
  rw [joinLines_map_flatten _ (fun g hg => chunkGo_mem_ne_nil budget _ _ _ g hg),
    chunkGo_flatten]
  simpa using joinLines_splitLines diff

theorem splitDiffIntoChunks_single_line (d : List Char) (budget : Nat)
    (h1 : '\n' ∉ d) (h2 : 0 < (trimChars d).length) :
    splitDiffIntoChunks d budget = [d] := by
  have hsplit : splitLines d = [d] := splitLines_single d h1
  have hgo : chunkGo budget [d] [] 0 = [[d]] := by
    rw [chunkGo_cons, if_neg (by simp)]
    simp [chunkGo]
  unfold splitDiffIntoChunks splitDiffChunksUnfiltered
  rw [hsplit, hgo]
  simp [joinLines, h2]

theorem splitDiffIntoChunks_chunk_bound (diff : List Char) (budget : Nat) :
    ∀ chunk ∈ splitDiffIntoChunks diff budget,
      chunk.length ≤ budget ∨ '\n' ∉ chunk := by
  intro chunk hchunk
  unfold splitDiffIntoChunks at hchunk
  have hmem := (List.mem_filter.mp hchunk).1
  unfold splitDiffChunksUnfiltered at hmem
  obtain ⟨g, hg, rfl⟩ := List.mem_map.mp hmem
  have hne : g ≠ [] := chunkGo_mem_ne_nil budget _ _ _ g hg
  match g, hne with
  | [l], _ =>
    right
    have hl : l ∈ [l] := List.mem_singleton.mpr rfl
    rcases chunkGo_mem_lines budget _ _ _ _ _ hg hl with h | h
    · simp at h
    · simpa [joinLines] using splitLines_no_newline diff l h
  | l1 :: l2 :: ls, _ =>
    left
    have hb := chunkGo_multi_bound budget (splitLines diff) [] 0 rfl (by simp)
      (l1 :: l2 :: ls) hg (by simp)
    have hlen := joinLines_length (l1 :: l2 :: ls) (by simp)
    omega

theorem splitDiffIntoChunks_oversized_preserved (diff : List Char) (budget : Nat) :
    ∀ line ∈ splitLines diff, line.length > budget → 0 < (trimChars line).length →
      line ∈ splitDiffIntoChunks diff budget := by
  intro line hline hbig htrim
  have hg : [line] ∈ chunkGo budget (splitLines diff) [] 0 :=
    chunkGo_oversized_singleton budget (splitLines diff) [] 0 line hline (by omega) rfl
  unfold splitDiffIntoChunks splitDiffChunksUnfiltered
  refine List.mem_filter.mpr ⟨List.mem_map.mpr ⟨[line], hg, rfl⟩, by simpa using htrim⟩

/-! ## Helper facts about the concrete non-terminating input -/

theorem trimChars_replicate (n : Nat) (c : Char) (h : isWsChar c = false) :
    trimChars (List.replicate n c) = List.replicate n c := by
  unfold trimChars
  cases n with
  | zero => rfl
  | succ n =>
    rw [List.replicate_succ, List.dropWhile_cons, if_neg (by simp [h]),
      ← List.replicate_succ, List.reverse_replicate, List.replicate_succ,
      List.dropWhile_cons, if_neg (by simp [h]), ← List.replicate_succ,
      List.reverse_replicate]

theorem newline_not_mem_replicate_a (n : Nat) : '\n' ∉ List.replicate n 'a' := by
  intro hm
  rw [List.mem_replicate] at hm
  exact absurd hm.2 (by decide)

/-! # The claims -/

/-- Claim C1 (code bug): the spec asserts that the recursive re-splitting in
`analyzeDiff` terminates for every diff, "even when a chunk consists of a
single line longer than the chunk budget".  The code diverges on exactly
that input: a single 6000-character line exceeds the 5120-byte chunk budget,
`splitDiffIntoChunks` returns the very same diff as its only chunk, and
`analyzeDiff` recurses on an identical argument forever.  Formally: no
recursion depth `fuel` whatsoever suffices for `analyzeDepth` (the model of
`analyzeDiff`'s unconditional recursion) on this input, under the default
configuration. -/
theorem C1_analyzeDiff_diverges_on_long_single_line :
    ∀ fuel : Nat, analyzeDepth none fuel (List.replicate 6000 'a') = false := by
  have hlen : (List.replicate 6000 'a').length = 6000 := List.length_replicate 6000 'a'
  have hsplit : splitDiffIntoChunks (List.replicate 6000 'a')
      (min (getMaxDiffSize none) (5 * 1024)) = [List.replicate 6000 'a'] :=
    splitDiffIntoChunks_single_line _ _ (newline_not_mem_replicate_a 6000)
      (by rw [trimChars_replicate 6000 'a' (by decide), List.length_replicate]; decide)
  intro fuel
  induction fuel with
  | zero => rfl
  | succ fuel ih =>
    show (if (List.replicate 6000 'a').length > min (getMaxDiffSize none) (5 * 1024) then
        (splitDiffIntoChunks (List.replicate 6000 'a')
          (min (getMaxDiffSize none) (5 * 1024))).all
          (fun chunk => analyzeDepth none fuel chunk)
      else true) = false
    rw [if_pos (by rw [hlen]; decide), hsplit]
    simp only [List.all_cons, List.all_nil, ih, Bool.false_and]

/-- Claim C2, counterexample: the split is not lossless for every diff and
positive budget.  For the diff `" \na"` with budget 1 the splitter isolates
the whitespace-only line `" "` into its own chunk and then drops it, so
rejoining the chunks with a newline yields `"a"`, not the original diff. -/
theorem C2_counterexample :
    0 < 1 ∧
      joinLines (splitDiffIntoChunks (" \na").toList 1) ≠ (" \na").toList := by
  constructor
  · decide
  · decide

/-- Claim C2, amended: for every diff and every positive chunk budget,
joining with a newline the chunk list built by `splitDiffIntoChunks`
*before its final whitespace-only filter* reproduces the original diff
exactly; the filter on `chunk.trim().length > 0` may subsequently drop
whitespace-only chunks (see the counterexample), which is the only loss. -/
theorem C2_split_lossless_before_filter (diff : List Char) (budget : Nat)
    (h : 0 < budget) :
    joinLines (splitDiffChunksUnfiltered diff budget) = diff :=
  splitDiffChunksUnfiltered_lossless diff budget

/-- Witness for C2: the amended theorem evaluated on the diff `"ab\ncd"`
with budget 3. -/
theorem C2_witness :
    joinLines (splitDiffChunksUnfiltered ("ab\ncd").toList 3) = ("ab\ncd").toList :=
  C2_split_lossless_before_filter ("ab\ncd").toList 3 (by decide)

set_option maxRecDepth 100000 in
/-- Claim C3 (code bug): the spec says a schema-validation failure is never
classified as a size-limit error and never triggers re-splitting.  But the
invalid-JSON error message built by `parseAndValidate` embeds the raw
completion content, and `isSizeLimitError` substring-matches the message, so
a non-JSON completion containing the words "too large" *is* classified as a
size-limit error, and the chunk-analysis catch block re-splits instead of
re-throwing.  Evaluated at the failing input `sizeWordContent`. -/
theorem C3_validation_failure_misclassified :
    exceptFailed (parseAndValidate sizeWordContent) = true ∧
      validationFailureSizeClassified sizeWordContent = true := by
  constructor
  · decide
  · decide

set_option maxRecDepth 100000 in
/-- Claim C4, counterexample: a completion payload whose JSON object is
wrapped in markdown code fences is *accepted*: `parseAndValidate` strips the
fences (riskAnalyzer.ts lines 515-518) and validates the inner object,
rather than rejecting the payload as the claim states. -/
theorem C4_counterexample :
    parseAndValidate fencedContent = Except.ok fencedAssessment := by decide

set_option maxRecDepth 100000 in
/-- Claim C4, amended: schema validation rejects every payload with a
missing required field, a wrong `risk_level` enum value, or a non-boolean
`missing_tests` — but a payload whose JSON is wrapped in markdown code
fences is unwrapped and accepted when the inner JSON validates. -/
theorem C4_schema_rejections :
    (∀ (fields : List (String × Json)) (k : String),
      k ∈ ["risk_level", "risk_summary", "risk_factors", "reviewer_focus_areas",
            "missing_tests", "migration_risk"] →
      lookupField fields k = none →
      exceptFailed (riskSchemaParse (Json.obj fields)) = true) ∧
    (∀ (fields : List (String × Json)) (s : String),
      lookupField fields "risk_level" = some (Json.str s) →
      s ≠ "LOW" → s ≠ "MEDIUM" → s ≠ "HIGH" →
      exceptFailed (riskSchemaParse (Json.obj fields)) = true) ∧
    (∀ (fields : List (String × Json)) (v : Json),
      lookupField fields "missing_tests" = some v →
      (∀ b : Bool, v ≠ Json.bool b) →
      exceptFailed (riskSchemaParse (Json.obj fields)) = true) ∧
    parseAndValidate fencedContent = Except.ok fencedAssessment := by
  refine ⟨?_, ?_, ?_, by decide⟩
  · intro fields k hk hnone
    cases hres : riskSchemaParse (Json.obj fields) with
    | error m => rfl
    | ok a =>
      exfalso
      have inv := riskSchemaParse_ok_inv fields a hres
      simp only [List.mem_cons, List.not_mem_nil, or_false] at hk
      rcases hk with rfl | rfl | rfl | rfl | rfl | rfl
      · obtain ⟨x, hx⟩ := inv.1
        rw [hnone] at hx
        cases hx
      · obtain ⟨x, hx⟩ := inv.2.1
        rw [hnone] at hx
        cases hx
      · obtain ⟨x, hx⟩ := inv.2.2.1
        rw [hnone] at hx
        cases hx
      · obtain ⟨x, hx⟩ := inv.2.2.2.1
        rw [hnone] at hx
        cases hx
      · obtain ⟨x, hx⟩ := inv.2.2.2.2.1
        rw [hnone] at hx
        cases hx
      · obtain ⟨x, hx⟩ := inv.2.2.2.2.2
        rw [hnone] at hx
        cases hx
  · intro fields s hs h1 h2 h3
    cases hres : riskSchemaParse (Json.obj fields) with
    | error m => rfl
    | ok a =>
      exfalso
      obtain ⟨x, hx⟩ := (riskSchemaParse_ok_inv fields a hres).1
      rw [hs, asRiskLevel_bad_enum s h1 h2 h3] at hx
      cases hx
  · intro fields v hv hnb
    cases hres : riskSchemaParse (Json.obj fields) with
    | error m => rfl
    | ok a =>
      exfalso
      obtain ⟨b, hb⟩ := (riskSchemaParse_ok_inv fields a hres).2.2.2.2.1
      have := asBool_ok_inv _ _ hb
      rw [hv] at this
      injection this with h'
      exact hnb b h'

/-- Witness for C4: the amended theorem applied to the empty object (its
`risk_level` field is missing, so validation fails). -/
theorem C4_witness :
    exceptFailed (riskSchemaParse (Json.obj [])) = true :=
  C4_schema_rejections.1 [] "risk_level" (by decide) rfl

/-- Claim C5, counterexample: with `MAX_DIFF_SIZE_KB = 5` the hard maximum
is 5120 bytes and the chunk budget `min(maxDiffSize, 5 * 1024)` equals it,
so the budget is *not* strictly smaller than the hard maximum for every
configuration. -/
theorem C5_counterexample :
    ¬ safeChunkSize (getMaxDiffSize (some 5)) < getMaxDiffSize (some 5) := by
  decide

/-- Claim C5, amended: for every configuration the chunk budget is at most
the hard maximum, and strictly smaller exactly when the hard maximum
exceeds the built-in 5 KB cap (as it does under the 30 KB default); in
every configuration a diff large enough to be rejected outright also
qualifies for chunking, so chunking is still attempted before rejection. -/
theorem C5_budget_below_max (env : Option Int) :
    safeChunkSize (getMaxDiffSize env) ≤ getMaxDiffSize env ∧
    (5 * 1024 < getMaxDiffSize env →
      safeChunkSize (getMaxDiffSize env) < getMaxDiffSize env) ∧
    (∀ dsize : Nat, dsize > getMaxDiffSize env →
      dsize > safeChunkSize (getMaxDiffSize env)) := by
  refine ⟨Nat.min_le_left _ _, ?_, ?_⟩
  · intro h
    unfold safeChunkSize
    omega
  · intro dsize h
    exact Nat.lt_of_le_of_lt (Nat.min_le_left _ _) h

/-- Witness for C5: under the default configuration (30 KB hard maximum)
the chunk budget is strictly smaller than the hard maximum. -/
theorem C5_witness :
    safeChunkSize (getMaxDiffSize none) < getMaxDiffSize none :=
  (C5_budget_below_max none).2.1 (by decide)

/-- Claim C6 (confirmed): for every non-empty list of assessments the
combined `risk_level` is the maximum of the inputs' levels under
LOW < MEDIUM < HIGH, and in particular is never lower than any input's
level. -/
theorem C6_combine_level_is_max (l : List RiskAssessment) (h : l ≠ []) :
    (combineAssessments l).risk_level = listLevelMax (l.map (fun a => a.risk_level)) ∧
    ∀ a ∈ l, riskLevelOrder a.risk_level ≤ riskLevelOrder (combineAssessments l).risk_level := by
  refine ⟨combineAssessments_level l h, ?_⟩
  intro a ha
  rw [combineAssessments_level l h]
  exact foldl_maxLevel_mem_le _ RiskLevel.LOW a.risk_level
    (List.mem_map.mpr ⟨a, ha, rfl⟩)

/-- Witness for C6: inputs `[LOW, HIGH, MEDIUM]` combine to `HIGH`. -/
theorem C6_witness :
    (combineAssessments [demoLow, demoHigh, demoMedium]).risk_level = RiskLevel.HIGH := by
  have h := C6_combine_level_is_max [demoLow, demoHigh, demoMedium]
    (List.cons_ne_nil _ _)
  rw [h.1]
  decide

/-- Claim C7, counterexample: `combineAssessments` is not order-independent
as a whole: permuting two assessments permutes the deduplicated
`risk_factors` list (and, on level ties, can change which summary is kept),
so the combined assessments differ as records. -/
theorem C7_counterexample :
    combineAssessments [demoLow, demoMedium] ≠ combineAssessments [demoMedium, demoLow] := by
  decide

/-- Claim C7, amended: the genuinely aggregated components of
`combineAssessments` are order-independent — for any permutation of the
inputs the combined `risk_level`, `missing_tests` and `migration_risk` are
unchanged and the combined `risk_factors` and `reviewer_focus_areas` hold
exactly the same elements — but the textual summary and the order of the
deduplicated lists depend on the input order (see the counterexample). -/
theorem C7_combine_perm_invariant (l l' : List RiskAssessment) (hp : l.Perm l') :
    (combineAssessments l).risk_level = (combineAssessments l').risk_level ∧
    (combineAssessments l).missing_tests = (combineAssessments l').missing_tests ∧
    (combineAssessments l).migration_risk = (combineAssessments l').migration_risk ∧
    (∀ s, s ∈ (combineAssessments l).risk_factors ↔
      s ∈ (combineAssessments l').risk_factors) ∧
    (∀ s, s ∈ (combineAssessments l).reviewer_focus_areas ↔
      s ∈ (combineAssessments l').reviewer_focus_areas) := by
  have hex : ∀ (p : RiskAssessment → Prop),
      (∃ x ∈ l, p x) ↔ (∃ x ∈ l', p x) := by
    intro p
    constructor
    · rintro ⟨x, hx, hpx⟩
      exact ⟨x, hp.mem_iff.mp hx, hpx⟩
    · rintro ⟨x, hx, hpx⟩
      exact ⟨x, hp.mem_iff.mpr hx, hpx⟩
  match l, l', hp.length_eq with
  | [], l', hlen =>
    have : l' = [] := List.eq_nil_of_length_eq_zero hlen.symm
    subst this
    exact ⟨rfl, rfl, rfl, fun s => Iff.rfl, fun s => Iff.rfl⟩
  | [a], l', hlen =>
    have : l' = [a] := List.perm_singleton.mp hp.symm
    subst this
    exact ⟨rfl, rfl, rfl, fun s => Iff.rfl, fun s => Iff.rfl⟩
  | a :: b :: rest, l', hlen =>
    match l', hlen with
    | x :: y :: rest', _ =>
      refine ⟨?_, ?_, ?_, ?_, ?_⟩
      · rw [combineAssessments_level _ (List.cons_ne_nil _ _),
          combineAssessments_level _ (List.cons_ne_nil _ _), listLevelMax, listLevelMax,
          foldl_maxLevel_perm (hp.map (fun a => a.risk_level)) RiskLevel.LOW]
      · rw [combineAssessments_missing, combineAssessments_missing,
          any_eq_of_perm hp]
      · rw [combineAssessments_migration, combineAssessments_migration]
        have hHigh :
            (MigrationRisk.HIGH ∈ ((a :: b :: rest).map (fun x => x.migration_risk)).filter
              (fun m => m ≠ MigrationRisk.NONE)) ↔
            (MigrationRisk.HIGH ∈ ((x :: y :: rest').map (fun x => x.migration_risk)).filter
              (fun m => m ≠ MigrationRisk.NONE)) := by
          rw [mem_migration_filter _ _ (by decide), mem_migration_filter _ _ (by decide)]
          exact hex _
        have hLow :
            (MigrationRisk.LOW ∈ ((a :: b :: rest).map (fun x => x.migration_risk)).filter
              (fun m => m ≠ MigrationRisk.NONE)) ↔
            (MigrationRisk.LOW ∈ ((x :: y :: rest').map (fun x => x.migration_risk)).filter
              (fun m => m ≠ MigrationRisk.NONE)) := by
          rw [mem_migration_filter _ _ (by decide), mem_migration_filter _ _ (by decide)]
          exact hex _
        exact if_congr hHigh rfl (if_congr hLow rfl rfl)
      · intro s
        rw [combineAssessments_factors_mem, combineAssessments_factors_mem]
        exact hex _
      · intro s
        rw [combineAssessments_areas_mem, combineAssessments_areas_mem]
        exact hex _

/-- Witness for C7: the amended theorem applied to a two-element swap. -/
theorem C7_witness :
    (combineAssessments [demoLow, demoHigh]).risk_level =
      (combineAssessments [demoHigh, demoLow]).risk_level :=
  (C7_combine_perm_invariant [demoLow, demoHigh] [demoHigh, demoLow]
    (List.Perm.swap demoHigh demoLow [])).1

/-- Claim C8, counterexample: an irreducible single line longer than the
budget is *not* always preserved — a whitespace-only oversized line (six
spaces, budget 3) is dropped by the splitter's final filter, so the output
is empty. -/
theorem C8_counterexample :
    0 < 3 ∧ ("      ").toList.length > 3 ∧
      splitDiffIntoChunks ("      ").toList 3 = [] := by
  refine ⟨by decide, by decide, by decide⟩

/-- Claim C8, amended: for every diff and positive budget, every chunk
produced by `splitDiffIntoChunks` either fits the budget or is a single
line (contains no newline); and every line longer than the budget is
preserved as its own chunk *provided it is not whitespace-only* (the final
filter drops whitespace-only chunks — see the counterexample). -/
theorem C8_budget_respect (diff : List Char) (budget : Nat) (h : 0 < budget) :
    (∀ chunk ∈ splitDiffIntoChunks diff budget,
      chunk.length ≤ budget ∨ '\n' ∉ chunk) ∧
    (∀ line ∈ splitLines diff, line.length > budget → 0 < (trimChars line).length →
      line ∈ splitDiffIntoChunks diff budget) :=
  ⟨splitDiffIntoChunks_chunk_bound diff budget,
   splitDiffIntoChunks_oversized_preserved diff budget⟩

/-- Witness for C8: in the diff `"abcdef\nxy"` with budget 3 the oversized
line `"abcdef"` is kept as its own chunk. -/
theorem C8_witness :
    ("abcdef").toList ∈ splitDiffIntoChunks ("abcdef\nxy").toList 3 :=
  (C8_budget_respect ("abcdef\nxy").toList 3 (by decide)).2
    ("abcdef").toList (by decide) (by decide) (by decide)

/-- Claim C9 (confirmed): for every diff size, the fallback assessment has
`risk_level = MEDIUM`, `missing_tests = true`, `migration_risk = NONE`,
non-empty risk factors and focus areas that call for manual review, and its
JSON encoding passes the same `RiskSchema` validation as an LLM-derived
payload. -/
theorem C9_fallback_wellformed (n : Nat) :
    (createFallbackAssessment n).risk_level = RiskLevel.MEDIUM ∧
    (createFallbackAssessment n).missing_tests = true ∧
    (createFallbackAssessment n).migration_risk = MigrationRisk.NONE ∧
    (createFallbackAssessment n).risk_factors ≠ [] ∧
    (createFallbackAssessment n).reviewer_focus_areas ≠ [] ∧
    "Review all changes manually" ∈ (createFallbackAssessment n).reviewer_focus_areas ∧
    "Diff too large for automated analysis" ∈ (createFallbackAssessment n).risk_factors ∧
    riskSchemaParse (riskToJson (createFallbackAssessment n)) =
      Except.ok (createFallbackAssessment n) := by
  refine ⟨rfl, rfl, rfl, by simp [createFallbackAssessment],
    by simp [createFallbackAssessment], by simp [createFallbackAssessment],
    by simp [createFallbackAssessment], fallback_schema_valid n⟩

/-- Claim C10 (confirmed): `combineAssessments` on the empty list neither
throws nor returns a malformed value: it returns exactly the fallback
assessment built for size 0, whose JSON encoding passes the `RiskSchema`
validation. -/
theorem C10_combine_empty_is_fallback :
    combineAssessments [] = createFallbackAssessment 0 ∧
      riskSchemaParse (riskToJson (combineAssessments [])) =
        Except.ok (combineAssessments []) :=
  ⟨rfl, rfl⟩

/-! ## Quick sanity examples -/

example : splitLines ("a\nb").toList = [['a'], ['b']] := by decide

example : joinLines [['a'], ['b']] = ('a' :: '\n' :: ['b']) := by decide

example : splitDiffIntoChunks ("ab\ncd").toList 3 = [['a', 'b'], ['c', 'd']] := by decide

example :
    splitDiffIntoChunks (" \na").toList 1 = [['a']] := by decide

example : exceptFailed (jsonParse sizeWordContent.toList) = true := by decide

set_option maxRecDepth 10000 in
example : validationFailureSizeClassified sizeWordContent = true := by decide

set_option maxRecDepth 10000 in
example : parseAndValidate fencedContent = Except.ok fencedAssessment := by decide
